import Mathlib

/-!
Verification development for the HL7 / CMS-1500 converter repository.

The repository implements, in TypeScript, a bidirectional codec between a
canonical JSON record and a pipe-delimited HL7-style wire format, plus a
heuristic field extractor over OCR text.  This file gives a shallow
embedding of the core pure functions:

* `formatDate`            — the date normalizer (both converter variants share it);
* `createSegment`         — the segment line builder with trailing-empty trimming;
* `convertToHL7`          — the table-driven JSON → HL7 encoder of the main converter;
* `convertHL7ToJsonWith`  — the table-driven HL7 → JSON decoder, with its
                            field-mapping table as an explicit parameter;
* `convertHL7ToJsonSwitch`— the switch-based HL7 → JSON decoder variant;
* `toHl7Format`           — the fixed-template encoder variant (its read of the
                            current clock is modelled as an explicit argument);
* `extractDataCore`       — the quorum/required-field logic of the OCR extractor,
                            with the per-field regex match results as input.

JS objects with string keys are modelled as insertion-ordered association
lists, matching JS enumeration order and in-place update semantics.
-/

/-- A JS object with string values: insertion-ordered association list.  Keys
are unique by construction of `jsSet`. -/
abbrev FieldMap := List (String × String)

/-- A decoded HL7 message: segment key mapped to its field map. -/
abbrev HL7Json := List (String × FieldMap)

/-- JS property read `obj[k]`: the value at the first binding of `k`. -/
def jsGet (m : List (String × α)) (k : String) : Option α :=
  (m.find? (fun p => p.1 == k)).map (·.2)

/-- JS read with falsy default, `obj[k] || ""`. -/
def jsGetD (m : FieldMap) (k : String) : String := (jsGet m k).getD ""

/-- JS property write `obj[k] = v`: update in place if the key exists (keeping
its position in enumeration order), otherwise append the new binding. -/
def jsSet (m : List (String × α)) (k : String) (v : α) : List (String × α) :=
  match m with
  | [] => [(k, v)]
  | (k0, v0) :: rest => if k0 == k then (k0, v) :: rest else (k0, v0) :: jsSet rest k v

/-- JS `String.prototype.split(sep)` for a single-character separator, on the
character list.  `split` of the empty string is `[""]`, and a trailing
separator produces a trailing empty piece, as in JS. -/
def splitChar (sep : Char) : List Char → List (List Char)
  | [] => [[]]
  | c :: rest =>
    if c = sep then [] :: splitChar sep rest
    else
      match splitChar sep rest with
      | [] => [[c]]
      | piece :: pieces => (c :: piece) :: pieces

/-- JS `String.prototype.split(sep)` for a single-character separator. -/
def jsSplit (sep : Char) (s : String) : List String :=
  (splitChar sep s.data).map String.mk

/-- JS `String.prototype.trim()` (over the ASCII whitespace actually present in
this data). -/
def jsTrim (s : String) : String :=
  String.mk (((s.data.dropWhile Char.isWhitespace).reverse.dropWhile Char.isWhitespace).reverse)

/-- Code-point comparison of strings as character lists: `a` sorts no later
than `b`.  This models `a.localeCompare(b) <= 0`, which agrees with code-point
order on the ASCII identifiers and digit strings this codec sorts. -/
def lexLe : List Char → List Char → Bool
  | [], _ => true
  | _ :: _, [] => false
  | a :: as, b :: bs => if a = b then lexLe as bs else decide (a < b)

/-- String form of `lexLe`. -/
def strLe (a b : String) : Bool := lexLe a.data b.data

/-- JS `String.prototype.padStart(2, "0")`. -/
def pad2 (s : String) : String :=
  if s.length ≥ 2 then s else String.mk (List.replicate (2 - s.length) '0') ++ s

/-- Matcher for the source regex `^(\d{1,2})[-\/](\d{1,2})[-\/](\d{4})$`
(from `formatDate`), returning the three capture groups.  The regex groups are
forced: the maximal leading digit run must be the first group (a longer run
leaves a digit where the separator must be), and symmetrically for the second
group; the tail after the second separator must be exactly four digits. -/
def parseMDY (s : String) : Option (String × String × String) :=
  match s.data.dropWhile Char.isDigit with
  | c1 :: r1 =>
    if (c1 == '-' || c1 == '/') && decide (1 ≤ (s.data.takeWhile Char.isDigit).length)
        && decide ((s.data.takeWhile Char.isDigit).length ≤ 2) then
      match r1.dropWhile Char.isDigit with
      | c2 :: r2 =>
        if (c2 == '-' || c2 == '/') && decide (1 ≤ (r1.takeWhile Char.isDigit).length)
            && decide ((r1.takeWhile Char.isDigit).length ≤ 2)
            && r2.length == 4 && r2.all Char.isDigit then
          some (String.mk (s.data.takeWhile Char.isDigit),
            String.mk (r1.takeWhile Char.isDigit), String.mk r2)
        else none
      | [] => none
    else none
  | [] => none

/-- The date normalizer shared by both converter variants (`formatDate`):
an 8-digit token passes through unchanged; a `M-D-YYYY` / `M/D/YYYY` shape is
rearranged to zero-padded `YYYYMMDD`; anything else yields the empty string. -/
def formatDate (dateStr : String) : String :=
  if dateStr.length == 8 && dateStr.data.all Char.isDigit then dateStr
  else
    match parseMDY dateStr with
    | some (month, day, year) => year ++ pad2 month ++ pad2 day
    | none => ""

/-- The `while (fields.length > 1 && fields[fields.length-1] === "") fields.pop()`
loop of `createSegment`, acting on the reversed field list. -/
def dropLeadingEmpty : List String → List String
  | [] => []
  | x :: rest => if x == "" && !rest.isEmpty then dropLeadingEmpty rest else x :: rest

/-- Trim trailing empty fields, but never below one slot (the trimming loop of `createSegment`). -/
def trimTrailingEmpty (fields : List String) : List String :=
  (dropLeadingEmpty fields.reverse).reverse

/-- The segment line builder `createSegment`: trim trailing empty fields (never below one slot) and join
the segment name with the remaining fields on `|`. -/
def createSegment (segmentName : String) (fields : List String) : String :=
  String.intercalate "|" (segmentName :: trimTrailingEmpty fields)

/-- The `segmentDefinitions` table of the table-driven encoder `convertToHL7`: per segment
type, the ordered field table `(jsonFieldName, wireIndex, usesFormatDate)`. -/
def segmentDefinitions : List (String × List (String × Nat × Bool)) :=
  [ ("MSH",
      [ ("encodingCharacters", 1, false), ("sendingApplication", 2, false),
        ("sendingFacility", 3, false), ("receivingApplication", 4, false),
        ("receivingFacility", 5, false), ("dateTime", 6, true),
        ("messageType", 8, false), ("controlId", 9, false),
        ("processingId", 10, false), ("versionId", 11, false) ]),
    ("PID",
      [ ("setId", 1, false), ("patientId", 3, false), ("patientName", 5, false),
        ("dob", 7, true), ("gender", 8, false), ("address", 11, false),
        ("phoneNumber", 13, false), ("patientAccountNumber", 18, false) ]),
    ("PV1",
      [ ("setId", 1, false), ("patientClass", 2, false), ("attendingDoctor", 7, false),
        ("billingProviderPhone", 19, false), ("providerAddress", 44, false) ]),
    ("PR1",
      [ ("setId", 1, false), ("procedureCode", 3, false),
        ("procedureDescription", 4, false), ("procedureDate", 5, true),
        ("providerName", 11, false) ]),
    ("IN1",
      [ ("setId", 1, false), ("insurancePlan", 2, false), ("otherInsured", 3, false),
        ("insuranceId", 4, false), ("secondaryInsurancePlan", 5, false),
        ("healthBenefitPlan", 6, false), ("insuredName", 16, false),
        ("insuredDob", 18, true), ("insuredAddress", 19, false),
        ("insuredPhoneNumber", 20, false) ]) ]

/-- The per-field value of the encoder: `segmentData[field] || ""`, then the
optional `transform` (only ever `formatDate`). -/
def encodeFieldValue (segData : FieldMap) (field : String) (usesDate : Bool) : String :=
  let value := jsGetD segData field
  if usesDate then formatDate value else value

/-- The slot array the encoder builds for one segment:
`Array(Math.max(...indices) + 1).fill("")`, then `slots[index] = value` for each
table entry. -/
def buildSlots (defs : List (String × Nat × Bool)) (segData : FieldMap) : List String :=
  let maxIdx := (defs.map (fun d => d.2.1)).foldl max 0
  defs.foldl (fun slots d => slots.set d.2.1 (encodeFieldValue segData d.1 d.2.2))
    (List.replicate (maxIdx + 1) "")

/-- The five standard segment lines of `convertToHL7`: a line is produced for a
type exactly when the record has that key (`if (segmentData)`), in table order. -/
def standardSegments (record : HL7Json) : List String :=
  segmentDefinitions.filterMap (fun d =>
    (jsGet record d.1).map (fun segData => createSegment d.1 (buildSlots d.2 segData)))

/-- Keys of the record starting with `OBX`, in JS object enumeration
(= insertion) order. -/
def obxKeys (record : HL7Json) : List String :=
  (record.map (·.1)).filter (fun k => "OBX".data.isPrefixOf k.data)

/-- The OBX sort key: `jsonDataRef.current[k]?.setId || k`. -/
def obxSortKey (record : HL7Json) (k : String) : String :=
  match (jsGet record k).bind (fun m => jsGet m "setId") with
  | some s => if s == "" then k else s
  | none => k

/-- The comparison used by the encoder call
`sort((a, b) => aId.localeCompare(bId))` over OBX keys. -/
def obxKeyLe (record : HL7Json) (a b : String) : Prop :=
  strLe (obxSortKey record a) (obxSortKey record b) = true

instance (record : HL7Json) : DecidableRel (obxKeyLe record) :=
  fun _ _ => instDecidableEqBool _ _

/-- The sort the encoder applies to the OBX keys, modelled as a stable insertion sort
with the `localeCompare` comparison (JS array sort is stable). -/
def sortedObxKeys (record : HL7Json) : List String :=
  (obxKeys record).insertionSort (obxKeyLe record)

/-- The OBX line emitted for one instance key (field list of `convertToHL7`). -/
def obxLine (record : HL7Json) (k : String) : String :=
  let obxData := (jsGet record k).getD []
  createSegment "OBX"
    [ jsGetD obxData "setId", jsGetD obxData "valueType",
      jsGetD obxData "observationIdentifier", "",
      jsGetD obxData "observationValue", "", "", "", "", "",
      jsGetD obxData "observationStatus" ]

/-- The OBX portion of the encoder output: one line per `OBX*` key, in sorted order. -/
def obxSegments (record : HL7Json) : List String :=
  (sortedObxKeys record).map (obxLine record)

/-- The table-driven JSON → HL7 encoder `convertToHL7` (file-reading and JSON
parsing stripped: the parsed record is the argument). -/
def convertToHL7 (record : HL7Json) : String :=
  String.intercalate "\n" (standardSegments record ++ obxSegments record)

/-- The `segmentFieldMappings` table of the table-driven decoder: per segment type, the
map from 1-based wire position to canonical field name. -/
def segmentFieldMappings : List (String × List (Nat × String)) :=
  [ ("MSH",
      [ (1, "encodingCharacters"), (2, "sendingApplication"), (3, "sendingFacility"),
        (4, "receivingApplication"), (5, "receivingFacility"), (6, "dateTime"),
        (8, "messageType"), (9, "controlId"), (10, "processingId"), (11, "versionId") ]),
    ("PID",
      [ (1, "setId"), (3, "patientId"), (5, "patientName"), (7, "dob"), (8, "gender"),
        (11, "address"), (13, "phoneNumber"), (18, "patientAccountNumber") ]),
    ("PV1",
      [ (1, "setId"), (2, "patientClass"), (7, "attendingDoctor"),
        (19, "billingProviderPhone"), (44, "providerAddress") ]),
    ("PR1",
      [ (1, "setId"), (3, "procedureCode"), (4, "procedureDescription"),
        (5, "procedureDate"), (11, "providerName") ]),
    ("IN1",
      [ (1, "setId"), (2, "insurancePlan"), (3, "otherInsured"), (4, "insuranceId"),
        (5, "secondaryInsurancePlan"), (6, "healthBenefitPlan"), (16, "insuredName"),
        (18, "insuredDob"), (19, "insuredAddress"), (20, "insuredPhoneNumber") ]),
    ("OBX",
      [ (1, "setId"), (2, "valueType"), (3, "observationIdentifier"),
        (5, "observationValue"), (11, "observationStatus") ]) ]

/-- Position lookup in a per-type mapping table. -/
def positionName (tbl : List (Nat × String)) (pos : Nat) : Option String :=
  (tbl.find? (fun p => p.1 == pos)).map (·.2)

/-- The field key the decoder resolves, `mappings[`field${index+1}`] || `field${index+1}``,
where `pos` is the 1-based wire position. -/
def fieldKeyFor (tbl : List (Nat × String)) (pos : Nat) : String :=
  match positionName tbl pos with
  | some name => name
  | none => "field" ++ toString pos

/-- The per-line field map of the decoder: fields in wire order, each stored under
its resolved key (`segmentData[fieldKey] = field || ""`). -/
def decodeFields (tbl : List (Nat × String)) (fields : List String) : FieldMap :=
  fields.enum.foldl
    (fun segData p => jsSet segData (fieldKeyFor tbl (p.1 + 1)) p.2) []

/-- One line of the table-driven decoder: split on `|`, take the type token,
compute the segment key (`OBX` plus the set id when present and truthy), and
decode the fields through the mapping table for the type. -/
def decodeLine (mappings : List (String × List (Nat × String))) (jsonOutput : HL7Json)
    (line : String) : HL7Json :=
  match jsSplit '|' line with
  | [] => jsonOutput
  | segmentType :: fields =>
    let segmentKey :=
      if segmentType == "OBX" then
        match fields.head? with
        | some setId => if setId == "" then segmentType else "OBX" ++ setId
        | none => segmentType
      else segmentType
    let tbl := (jsGet mappings segmentType).getD []
    jsSet jsonOutput segmentKey (decodeFields tbl fields)

/-- The table-driven HL7 → JSON decoder `convertHL7ToJson`, with its mapping
table as an explicit parameter (the source hardcodes `segmentFieldMappings`
inside the function body). -/
def convertHL7ToJsonWith (mappings : List (String × List (Nat × String)))
    (hl7 : String) : HL7Json :=
  let lines := (jsSplit '\n' hl7).filter (fun l => jsTrim l != "")
  lines.foldl (decodeLine mappings) []

/-- The table-driven decoder applied to the mapping table hardcoded in the source. -/
def convertHL7ToJson (hl7 : String) : HL7Json :=
  convertHL7ToJsonWith segmentFieldMappings hl7

/-- The per-segment field map of the switch-based decoder variant
(`convertHL7ToJson` in the single-dropzone converter): each known type gets a
fixed literal object whose values are `fields[i] || ""`; unknown types fall
back to generic names `field<i>` with the 0-based array index. -/
def switchSegmentMap (segmentType : String) (fields : List String) : FieldMap :=
  let g := fun i => ((fields.get? i).getD "")
  match segmentType with
  | "MSH" =>
      [ ("encodingCharacters", g 0), ("sendingApplication", g 1),
        ("sendingFacility", g 2), ("receivingApplication", g 3),
        ("receivingFacility", g 4), ("dateTime", g 5), ("messageType", g 7),
        ("controlId", g 8), ("processingId", g 9), ("versionId", g 10) ]
  | "PID" =>
      [ ("setId", g 0), ("patientId", g 2), ("patientName", g 4), ("dob", g 6),
        ("gender", g 7), ("address", g 10), ("phoneNumber", g 12),
        ("patientAccountNumber", g 17) ]
  | "PV1" =>
      [ ("setId", g 0), ("patientClass", g 1), ("attendingDoctor", g 6),
        ("providerPhoneNumber", g 18) ]
  | "PR1" =>
      [ ("setId", g 0), ("procedureCode", g 2), ("procedureDescription", g 3),
        ("procedureDate", g 4), ("providerName", g 10) ]
  | "IN1" =>
      [ ("setId", g 0), ("insurancePlan", g 1), ("otherInsured", g 2),
        ("insuranceId", g 3), ("secondaryInsurancePlan", g 4),
        ("insuredName", g 15), ("insuredDob", g 17), ("insuredAddress", g 18),
        ("insuredPhoneNumber", g 19) ]
  | "OBX" =>
      [ ("setId", g 0), ("valueType", g 1), ("observationIdentifier", g 2),
        ("observationValue", g 4), ("observationStatus", g 10) ]
  | _ => fields.enum.foldl (fun acc p => jsSet acc ("field" ++ toString p.1) p.2) []

/-- One line of the switch-based decoder: the `if (!jsonOutput[segmentType])`
pre-step, then the switch assignment (OBX lines are re-keyed by their set id
unless it is absent, empty, or the sentinel `"0"`). -/
def decodeLineSwitch (jsonOutput : HL7Json) (line : String) : HL7Json :=
  match jsSplit '|' line with
  | [] => jsonOutput
  | segmentType :: fields =>
    let out0 :=
      if (jsGet jsonOutput segmentType).isNone then jsSet jsonOutput segmentType []
      else jsonOutput
    if segmentType == "OBX" then
      let setId :=
        match fields.head? with
        | some s => if s == "" then "0" else s
        | none => "0"
      let key := if setId == "0" then "OBX" else "OBX" ++ setId
      jsSet out0 key (switchSegmentMap segmentType fields)
    else jsSet out0 segmentType (switchSegmentMap segmentType fields)

/-- The switch-based HL7 → JSON decoder variant. -/
def convertHL7ToJsonSwitch (hl7 : String) : HL7Json :=
  let lines := (jsSplit '\n' hl7).filter (fun l => jsTrim l != "")
  lines.foldl decodeLineSwitch []

/-- The parser `parseCMS1500Text` of the fixed-template converter: one `key: value` pair
per line, keeping only lines where both halves are truthy. -/
def parseCMS1500Text (text : String) : List (String × String) :=
  (jsSplit '\n' text).foldl
    (fun data line =>
      match jsSplit ':' line with
      | key :: value :: _ =>
        if key != "" && value != "" then jsSet data (jsTrim key) (jsTrim value) else data
      | _ => data)
    []

/-- The fixed-template encoder `toHl7Format`.  The source interpolates
`new Date().toISOString()` into the MSH segment; that read of the ambient
clock is modelled by the explicit `now` argument. -/
def toHl7Format (now : String) (data : List (String × String)) : String :=
  let g := fun k => (jsGet data k).getD ""
  let sex := match jsGet data "sex" with | some s => String.mk (s.data.take 1) | none => ""
  String.intercalate "\n"
    [ "MSH|^~\\&|CMS1500App|Hospital|HL7Receiver|HL7Facility|" ++ now
        ++ "||ADT^A01|MSG00001|P|2.5",
      "PID|||" ++ g "insurance_id" ++ "||" ++ g "pt_name" ++ "||" ++ g "birth_yy"
        ++ g "birth_mm" ++ g "birth_dd" ++ "|" ++ sex ++ "|||" ++ g "pt_city"
        ++ "^" ++ g "pt_state",
      "IN1|||" ++ g "insurance_name" ++ "||" ++ g "insurance_id",
      "PV1||O|Clinic||||" ++ g "physician_signature" ++ "|||||||||||"
        ++ g "physician_date" ]

/-- The result of one JS `String.prototype.match` call, restricted to the
capture groups the extractor reads: `match[1]`, `match[2]`, `match[3]`
(each `none` when the group did not participate). -/
structure MRes where
  g1 : Option String
  g2 : Option String
  g3 : Option String
deriving DecidableEq

/-- One entry of the `fieldExtractors` table of the extractor, keeping the data the
control flow depends on: the target key, the `required` flag, whether the key
gets the date post-processing (`dob` / `serviceDate`), and whether a
`fallback` regex exists. -/
structure FieldSpec where
  key : String
  required : Bool
  isDate : Bool
  hasFallback : Bool

/-- The `fieldExtractors` table of `extractDataFromPDF`, in source order.
The concrete regexes are external to this embedding; their match results are
supplied by a `MatchAssignment`. -/
def fieldExtractors : List FieldSpec :=
  [ ⟨"patientName", true, false, true⟩,
    ⟨"insuranceId", true, false, true⟩,
    ⟨"dob", false, true, true⟩,
    ⟨"providerName", false, false, true⟩,
    ⟨"serviceDate", true, true, true⟩,
    ⟨"patientAddress", false, false, true⟩,
    ⟨"diagnosis", true, false, true⟩,
    ⟨"diagnosisDescription", false, false, false⟩,
    ⟨"procedureCode", false, false, true⟩,
    ⟨"providerAddress", false, false, true⟩,
    ⟨"phoneNumber", false, false, true⟩,
    ⟨"insurancePlan", false, false, true⟩ ]

/-- For a given OCR text, the outcome of matching the primary and
fallback regex of each field: `key ↦ (primary result, fallback result)`.  Every OCR text
induces one such assignment; the extractor reads the text only through it. -/
abbrev MatchAssignment := String → Option MRes × Option MRes

/-- Source line `let match = text.match(regex); if (!match && fallback) match = text.match(fallback)`. -/
def effectiveMatch (σ : MatchAssignment) (sp : FieldSpec) : Option MRes :=
  match (σ sp.key).1 with
  | some m => some m
  | none => if sp.hasFallback then (σ sp.key).2 else none

/-- JS `String.prototype.replace(/\s+/g, "/")`: each maximal whitespace run
becomes one `/`.  The flag records whether the previous character was part of
a run already replaced. -/
def collapseWsAux : Bool → List Char → List Char
  | _, [] => []
  | prevWs, c :: rest =>
    if c.isWhitespace then
      if prevWs then collapseWsAux true rest
      else '/' :: collapseWsAux true rest
    else c :: collapseWsAux false rest

/-- JS `replace(/\s+/g, "/")` on a character list. -/
def collapseWs (l : List Char) : List Char := collapseWsAux false l

/-- Numeric value of a digit run. -/
def digitsVal (l : List Char) : Nat := l.foldl (fun n c => n * 10 + (c.toNat - 48)) 0

/-- JS `parseInt(s, 10)`: skip leading whitespace, optional sign, then the
maximal digit prefix; `none` models `NaN`. -/
def jsParseInt (s : String) : Option Int :=
  let cs := s.data.dropWhile Char.isWhitespace
  let signed : Int × List Char :=
    match cs with
    | '-' :: rest => (-1, rest)
    | '+' :: rest => (1, rest)
    | _ => (1, cs)
  let ds := signed.2.takeWhile Char.isDigit
  if ds.isEmpty then none else some (signed.1 * (digitsVal ds : Int))

/-- The date post-processing of a successful match for `dob` / `serviceDate`:
three capture groups are taken as month/day/year directly; otherwise
`match[1]` is split on collapsed whitespace; the year must parse to
1900–2025 or the field is silently left unset (`.ok none`).  `.error ()`
models the `TypeError` the source throws when it calls a string method on an
absent group or split part. -/
def dateOfMatch (m : MRes) : Except Unit (Option String) :=
  if (match m.g3 with | some y => y != "" | none => false) then
    let month := m.g1.getD "undefined"
    let day := m.g2.getD "undefined"
    let year := m.g3.getD ""
    match jsParseInt year with
    | some y =>
      if 1900 ≤ y ∧ y ≤ 2025 then .ok (some (month ++ "/" ++ day ++ "/" ++ year))
      else .ok none
    | none => .ok none
  else
    match m.g1 with
    | none => .error ()
    | some s =>
      match (splitChar '/' (collapseWs s.data)).map String.mk with
      | p0 :: p1 :: rest =>
        let month := pad2 p0
        let day := pad2 p1
        match rest.head? with
        | some year =>
          match jsParseInt year with
          | some y =>
            if 1900 ≤ y ∧ y ≤ 2025 then .ok (some (month ++ "/" ++ day ++ "/" ++ year))
            else .ok none
          | none => .ok none
        | none => .ok none
      | _ => .error ()

/-- The loop state of the extractor: `extractedData`, `missingRequiredFields`, and
`requiredFieldsFound`. -/
structure ExtAcc where
  data : List (String × String)
  missing : List String
  found : Nat
deriving DecidableEq

/-- The increment `requiredFieldsFound++` guarded by the `required` flag. -/
def reqBump (required : Bool) (n : Nat) : Nat := if required then n + 1 else n

/-- One iteration of the `fieldExtractors.forEach` loop. -/
def stepField (σ : MatchAssignment) (acc : ExtAcc) (sp : FieldSpec) : Except Unit ExtAcc :=
  match effectiveMatch σ sp with
  | none =>
    .ok (if sp.required then { acc with missing := acc.missing ++ [sp.key] } else acc)
  | some m =>
    if sp.isDate then
      match dateOfMatch m with
      | .error _ => .error ()
      | .ok none => .ok acc
      | .ok (some v) =>
        .ok { acc with data := jsSet acc.data sp.key v,
                       found := reqBump sp.required acc.found }
    else
      match m.g1 with
      | none => .error ()
      | some s =>
        .ok { acc with data := jsSet acc.data sp.key (jsTrim s),
                       found := reqBump sp.required acc.found }

/-- The whole `forEach` loop over `fieldExtractors`. -/
def runExtractors (σ : MatchAssignment) : Except Unit ExtAcc :=
  fieldExtractors.foldlM (stepField σ) ⟨[], [], 0⟩

/-- The default sentinels installed after the loop
(`if (!extractedData.x) extractedData.x = ...`), in source order. -/
def defaultFields : List (String × String) :=
  [ ("dob", "01/01/1900"), ("providerName", "Unknown Provider"),
    ("patientAddress", "Unknown Address"),
    ("diagnosisDescription", "Illness, unspecified"),
    ("procedureCode", "00000"), ("providerAddress", "Unknown Provider Address"),
    ("phoneNumber", "Unknown"), ("insurancePlan", "Unknown Plan") ]

/-- Install a default for every key that is absent or empty (JS falsiness). -/
def applyDefaults (d : List (String × String)) : List (String × String) :=
  defaultFields.foldl (fun d kv => if jsGetD d kv.1 == "" then jsSet d kv.1 kv.2 else d) d

/-- Extraction failure kinds: a thrown `TypeError` from the date
post-processing, or the quorum failure carrying `missingRequiredFields`. -/
inductive ExtractErr where
  | typeError : ExtractErr
  | quorum : List String → ExtractErr
deriving DecidableEq

/-- The required-field/quorum core of `extractDataFromPDF`: run the field
loop, fail with the quorum error when fewer than 4 required fields were
accepted, otherwise install the default sentinels. -/
def extractDataCore (σ : MatchAssignment) : Except ExtractErr (List (String × String)) :=
  match runExtractors σ with
  | .error _ => .error .typeError
  | .ok acc =>
    if acc.found < 4 then .error (.quorum acc.missing)
    else .ok (applyDefaults acc.data)

section SegmentTrimming

lemma dropLeadingEmpty_ne_nil : ∀ l : List String, l ≠ [] → dropLeadingEmpty l ≠ []
  | [], h => absurd rfl h
  | x :: rest, _ => by
    rw [dropLeadingEmpty]
    by_cases hc : (x == "" && !rest.isEmpty) = true
    · rw [if_pos hc]
      have hrest : rest ≠ [] := by
        intro he
        rw [he] at hc
        simp at hc
      exact dropLeadingEmpty_ne_nil rest hrest
    · rw [if_neg hc]
      exact List.cons_ne_nil x rest

lemma dropLeadingEmpty_dropped : ∀ l : List String,
    ∃ dropped, l = dropped ++ dropLeadingEmpty l ∧ ∀ x ∈ dropped, x = ""
  | [] => ⟨[], rfl, by intro x hx; cases hx⟩
  | x :: rest => by
    rw [dropLeadingEmpty]
    by_cases hc : (x == "" && !rest.isEmpty) = true
    · obtain ⟨d, hd, hall⟩ := dropLeadingEmpty_dropped rest
      rw [if_pos hc]
      refine ⟨x :: d, by rw [List.cons_append]; exact congrArg (x :: ·) hd, ?_⟩
      have hx : x = "" := by
        rw [Bool.and_eq_true] at hc
        exact eq_of_beq hc.1
      intro y hy
      rcases List.mem_cons.mp hy with h | h
      · rw [h, hx]
      · exact hall y h
    · rw [if_neg hc]
      exact ⟨[], rfl, by intro y hy; cases hy⟩

lemma dropLeadingEmpty_all_empty : ∀ l : List String, l ≠ [] → (∀ x ∈ l, x = "") →
    dropLeadingEmpty l = [""]
  | [], h, _ => absurd rfl h
  | x :: rest, _, hall => by
    have hx : x = "" := hall x (by simp)
    rw [dropLeadingEmpty]
    rcases List.eq_nil_or_concat rest with hrest | _
    · subst hrest
      simp [hx]
    · by_cases hr : rest = []
      · subst hr; simp [hx]
      · have hc : (x == "" && !rest.isEmpty) = true := by
          simp [hx, List.isEmpty_iff, hr]
        rw [if_pos hc]
        exact dropLeadingEmpty_all_empty rest hr (fun y hy => hall y (List.mem_cons_of_mem x hy))

lemma trimTrailingEmpty_ne_nil (fields : List String) (h : fields ≠ []) :
    trimTrailingEmpty fields ≠ [] := by
  unfold trimTrailingEmpty
  intro he
  have := dropLeadingEmpty_ne_nil fields.reverse (by simpa using h)
  exact this (by simpa using congrArg List.reverse he)

lemma trimTrailingEmpty_dropped (fields : List String) :
    ∃ dropped, fields = trimTrailingEmpty fields ++ dropped ∧ ∀ x ∈ dropped, x = "" := by
  obtain ⟨d, hd, hall⟩ := dropLeadingEmpty_dropped fields.reverse
  refine ⟨d.reverse, ?_, fun x hx => hall x (List.mem_reverse.mp hx)⟩
  unfold trimTrailingEmpty
  have := congrArg List.reverse hd
  simpa using this

lemma trimTrailingEmpty_all_empty (fields : List String) (h : fields ≠ [])
    (hall : ∀ x ∈ fields, x = "") : trimTrailingEmpty fields = [""] := by
  unfold trimTrailingEmpty
  rw [dropLeadingEmpty_all_empty fields.reverse (by simpa using h)
    (fun x hx => hall x (List.mem_reverse.mp hx))]
  rfl

lemma intercalate_pair (n b : String) : String.intercalate "|" [n, b] = n ++ "|" ++ b := by
  simp [String.intercalate, String.intercalate.go]

end SegmentTrimming

/-- C2 (counterexample): a segment whose fields are all empty is emitted as
`"TYPE|"` — the type token followed by one pipe and one empty slot — not as
the bare token `"TYPE"` claimed. -/
theorem createSegment_allEmpty_emits_pipe :
    createSegment "TYPE" ["", ""] = "TYPE|" ∧ createSegment "TYPE" ["", ""] ≠ "TYPE" := by
  constructor
  · rfl
  · decide

/-- C2 (amended): `createSegment` removes only a maximal run of trailing empty
fields (the kept fields are a prefix of the input and everything removed is
empty), keeps interior empties (`["A","",""]` gives `"TYPE|A"`, `["","B",""]`
gives `"TYPE||B"`), and never trims below one slot — so an all-empty field
list of any length is emitted as `TYPE|` with a single trailing pipe, not as
the bare type token. -/
theorem createSegment_trimming :
    createSegment "TYPE" ["A", "", ""] = "TYPE|A"
    ∧ createSegment "TYPE" ["", "B", ""] = "TYPE||B"
    ∧ (∀ segmentName fields, fields ≠ [] → (∀ x ∈ fields, x = "") →
        createSegment segmentName fields = segmentName ++ "|")
    ∧ (∀ fields : List String, fields ≠ [] → trimTrailingEmpty fields ≠ [])
    ∧ (∀ fields : List String,
        ∃ dropped, fields = trimTrailingEmpty fields ++ dropped ∧ ∀ x ∈ dropped, x = "") := by
  refine ⟨rfl, rfl, ?_, trimTrailingEmpty_ne_nil, trimTrailingEmpty_dropped⟩
  intro segmentName fields hne hall
  unfold createSegment
  rw [trimTrailingEmpty_all_empty fields hne hall, intercalate_pair]
  simp

/-- C2 (witness): the amended theorem applied at `"MSH"` with three empty fields. -/
theorem createSegment_trimming_witness :
    createSegment "MSH" ["", "", ""] = "MSH|" ∧ trimTrailingEmpty ["X", ""] ≠ [] :=
  ⟨createSegment_trimming.2.2.1 "MSH" ["", "", ""] (by decide) (by decide),
   createSegment_trimming.2.2.2.1 ["X", ""] (by decide)⟩

section DateNormalizer

lemma span_digits (l1 : List Char) (c : Char) (l2 : List Char)
    (h1 : ∀ ch ∈ l1, ch.isDigit = true) (hc : c.isDigit = false) :
    (l1 ++ c :: l2).takeWhile Char.isDigit = l1
    ∧ (l1 ++ c :: l2).dropWhile Char.isDigit = c :: l2 := by
  induction l1 with
  | nil => simp [List.takeWhile, List.dropWhile, hc]
  | cons x xs ih =>
    have hx : x.isDigit = true := h1 x (by simp)
    obtain ⟨iht, ihd⟩ := ih (fun ch hch => h1 ch (List.mem_cons_of_mem x hch))
    exact ⟨by simp [List.takeWhile, hx, iht], by simp [List.dropWhile, hx, ihd]⟩

/-- The shape named by the spec for the second `formatDate` branch: a 1-2 digit
month, a separator in `{-, /}`, a 1-2 digit day, a separator, and a 4-digit
year, making up the whole input. -/
def mdyShapeWitness (s m d y : String) (c1 c2 : Char) : Prop :=
  (c1 = '-' ∨ c1 = '/') ∧ (c2 = '-' ∨ c2 = '/')
  ∧ 1 ≤ m.data.length ∧ m.data.length ≤ 2 ∧ (∀ ch ∈ m.data, ch.isDigit = true)
  ∧ 1 ≤ d.data.length ∧ d.data.length ≤ 2 ∧ (∀ ch ∈ d.data, ch.isDigit = true)
  ∧ y.data.length = 4 ∧ (∀ ch ∈ y.data, ch.isDigit = true)
  ∧ s.data = m.data ++ c1 :: (d.data ++ c2 :: y.data)

lemma sep_not_digit {c : Char} (h : c = '-' ∨ c = '/') : c.isDigit = false := by
  rcases h with h | h <;> subst h <;> decide

lemma parseMDY_complete {s m d y : String} {c1 c2 : Char}
    (h : mdyShapeWitness s m d y c1 c2) : parseMDY s = some (m, d, y) := by
  obtain ⟨hc1, hc2, hm1, hm2, hmd, hd1, hd2, hdd, hy4, hyd, hs⟩ := h
  obtain ⟨ht1, hw1⟩ := span_digits m.data c1 (d.data ++ c2 :: y.data) hmd (sep_not_digit hc1)
  obtain ⟨ht2, hw2⟩ := span_digits d.data c2 y.data hdd (sep_not_digit hc2)
  have hsep1 : (c1 == '-' || c1 == '/') = true := by
    rcases hc1 with h | h <;> simp [h]
  have hsep2 : (c2 == '-' || c2 == '/') = true := by
    rcases hc2 with h | h <;> simp [h]
  have hcond1 : ((c1 == '-' || c1 == '/') && decide (1 ≤ m.data.length)
      && decide (m.data.length ≤ 2)) = true := by
    rw [Bool.and_eq_true, Bool.and_eq_true]
    exact ⟨⟨hsep1, decide_eq_true hm1⟩, decide_eq_true hm2⟩
  have hcond2 : ((c2 == '-' || c2 == '/') && decide (1 ≤ d.data.length)
      && decide (d.data.length ≤ 2) && y.data.length == 4 && y.data.all Char.isDigit) = true := by
    rw [Bool.and_eq_true, Bool.and_eq_true, Bool.and_eq_true, Bool.and_eq_true]
    exact ⟨⟨⟨⟨hsep2, decide_eq_true hd1⟩, decide_eq_true hd2⟩, beq_iff_eq.mpr hy4⟩,
      List.all_eq_true.mpr hyd⟩
  unfold parseMDY
  simp only [hs, ht1, hw1, ht2, hw2, hcond1, hcond2, if_true]

lemma parseMDY_sound {s m d y : String} (h : parseMDY s = some (m, d, y)) :
    ∃ c1 c2, mdyShapeWitness s m d y c1 c2 := by
  unfold parseMDY at h
  rcases hw1 : s.data.dropWhile Char.isDigit with _ | ⟨c1, r1⟩ <;> rw [hw1] at h <;>
    dsimp only at h
  · exact absurd h (by simp)
  by_cases hb1 : ((c1 == '-' || c1 == '/')
      && decide (1 ≤ (s.data.takeWhile Char.isDigit).length)
      && decide ((s.data.takeWhile Char.isDigit).length ≤ 2)) = true
  swap
  · rw [if_neg hb1] at h; exact absurd h (by simp)
  rw [if_pos hb1] at h
  rcases hw2 : r1.dropWhile Char.isDigit with _ | ⟨c2, r2⟩ <;> rw [hw2] at h <;>
    dsimp only at h
  · exact absurd h (by simp)
  by_cases hb2 : ((c2 == '-' || c2 == '/')
      && decide (1 ≤ (r1.takeWhile Char.isDigit).length)
      && decide ((r1.takeWhile Char.isDigit).length ≤ 2)
      && r2.length == 4 && r2.all Char.isDigit) = true
  swap
  · rw [if_neg hb2] at h; exact absurd h (by simp)
  rw [if_pos hb2] at h
  simp only [Option.some.injEq, Prod.mk.injEq] at h
  obtain ⟨hm, hd, hy⟩ := h
  simp only [Bool.and_eq_true, Bool.or_eq_true, beq_iff_eq, decide_eq_true_eq,
    List.all_eq_true] at hb1 hb2
  refine ⟨c1, c2, hb1.1.1, hb2.1.1.1.1, ?_⟩
  have hmdata : m.data = s.data.takeWhile Char.isDigit := by rw [← hm]
  have hddata : d.data = r1.takeWhile Char.isDigit := by rw [← hd]
  have hydata : y.data = r2 := by rw [← hy]
  rw [hmdata, hddata, hydata]
  refine ⟨hb1.1.2, hb1.2, fun ch hch => List.mem_takeWhile_imp hch,
    hb2.1.1.1.2, hb2.1.1.2, fun ch hch => List.mem_takeWhile_imp hch,
    hb2.1.2, hb2.2, ?_⟩
  have e1 : s.data.takeWhile Char.isDigit ++ (c1 :: r1) = s.data := by
    rw [← hw1]; exact List.takeWhile_append_dropWhile Char.isDigit s.data
  have e2 : r1.takeWhile Char.isDigit ++ (c2 :: r2) = r1 := by
    rw [← hw2]; exact List.takeWhile_append_dropWhile Char.isDigit r1
  rw [e2, e1]

lemma formatDate_eight {s : String} (h1 : s.length = 8)
    (h2 : ∀ c ∈ s.data, c.isDigit = true) : formatDate s = s := by
  have hb : (s.length == 8 && s.data.all Char.isDigit) = true := by
    rw [Bool.and_eq_true, beq_iff_eq, List.all_eq_true]
    exact ⟨h1, h2⟩
  unfold formatDate
  rw [if_pos hb]

lemma pad2_data {s : String} (h1 : 1 ≤ s.data.length) (h2 : s.data.length ≤ 2)
    (hd : ∀ ch ∈ s.data, ch.isDigit = true) :
    (pad2 s).data.length = 2 ∧ ∀ ch ∈ (pad2 s).data, ch.isDigit = true := by
  unfold pad2
  by_cases hl : s.length ≥ 2
  · rw [if_pos hl]
    exact ⟨le_antisymm h2 hl, hd⟩
  · rw [if_neg hl]
    have hone : s.data.length = 1 := by
      have hsd : s.length = s.data.length := rfl
      omega
    have hsl : String.length s = 1 := hone
    constructor
    · rw [String.data_append, List.length_append, List.length_replicate, hsl, hone]
    · intro ch hch
      rw [String.data_append] at hch
      rcases List.mem_append.mp hch with h | h
      · have hch0 : ch = '0' := List.eq_of_mem_replicate (by simpa using h)
        subst hch0; decide
      · exact hd ch h

lemma formatDate_output (s : String) :
    formatDate s = "" ∨ ((formatDate s).length = 8 ∧ ∀ c ∈ (formatDate s).data, c.isDigit = true) := by
  unfold formatDate
  by_cases h8 : (s.length == 8 && s.data.all Char.isDigit) = true
  · rw [if_pos h8]
    right
    simp only [Bool.and_eq_true, beq_iff_eq, List.all_eq_true] at h8
    exact ⟨h8.1, h8.2⟩
  · rw [if_neg h8]
    rcases hp : parseMDY s with _ | ⟨m, d, y⟩
    · left; rfl
    right
    obtain ⟨c1, c2, hsh⟩ := parseMDY_sound hp
    obtain ⟨_, _, hm1, hm2, hmd, hd1, hd2, hdd, hy4, hyd, _⟩ := hsh
    obtain ⟨hpm, hpmd⟩ := pad2_data hm1 hm2 hmd
    obtain ⟨hpd, hpdd⟩ := pad2_data hd1 hd2 hdd
    constructor
    · show (y ++ pad2 m ++ pad2 d).data.length = 8
      rw [String.data_append, String.data_append, List.length_append, List.length_append]
      omega
    · intro c hc
      rw [String.data_append, String.data_append] at hc
      rcases List.mem_append.mp hc with h | h
      · rcases List.mem_append.mp h with h | h
        · exact hyd c h
        · exact hpmd c h
      · exact hpdd c h

end DateNormalizer

/-- C6: `formatDate` returns an 8-digit input unchanged; rearranges a
`<1-2 digits><sep><1-2 digits><sep><4 digits>` input (separators `-` or `/`)
into the zero-padded `YYYYMMDD` token with the first group as month, second as
day, third as year; and returns the empty string on every other shape. -/
theorem formatDate_shapes (s : String) :
    (s.length = 8 → (∀ c ∈ s.data, c.isDigit = true) → formatDate s = s)
    ∧ (∀ m d y c1 c2, mdyShapeWitness s m d y c1 c2 →
        formatDate s = y ++ pad2 m ++ pad2 d)
    ∧ (¬(s.length = 8 ∧ ∀ c ∈ s.data, c.isDigit = true) →
       (¬∃ m d y c1 c2, mdyShapeWitness s m d y c1 c2) →
       formatDate s = "") := by
  refine ⟨fun h1 h2 => formatDate_eight h1 h2, ?_, ?_⟩
  · intro m d y c1 c2 hsh
    have hp := parseMDY_complete hsh
    have hc1mem : c1 ∈ s.data := by
      rw [hsh.2.2.2.2.2.2.2.2.2.2]
      simp
    have hall : s.data.all Char.isDigit = false := by
      apply Bool.eq_false_iff.mpr
      intro hall2
      rw [List.all_eq_true] at hall2
      have hdig := hall2 c1 hc1mem
      rw [sep_not_digit hsh.1] at hdig
      exact Bool.false_ne_true hdig
    have hbfalse : ¬((s.length == 8 && s.data.all Char.isDigit) = true) := by
      rw [hall]
      simp
    unfold formatDate
    rw [if_neg hbfalse, hp]
  · intro h8 hsh
    have hbfalse : ¬((s.length == 8 && s.data.all Char.isDigit) = true) := by
      rw [Bool.and_eq_true, beq_iff_eq, List.all_eq_true]
      exact fun hc => h8 hc
    unfold formatDate
    rw [if_neg hbfalse]
    rcases hp : parseMDY s with _ | ⟨m, d, y⟩
    · rfl
    · obtain ⟨c1, c2, hw⟩ := parseMDY_sound hp
      exact absurd ⟨m, d, y, c1, c2, hw⟩ hsh

/-- C6 (witness): the three branches of `formatDate_shapes` at concrete
inputs `"20240131"`, `"3-7-1990"`, and `"hello"`. -/
theorem formatDate_shapes_witness :
    formatDate "20240131" = "20240131"
    ∧ formatDate "3-7-1990" = "19900307"
    ∧ formatDate "hello" = "" := by
  refine ⟨(formatDate_shapes "20240131").1 (by decide) (by decide), ?_, ?_⟩
  · have h := (formatDate_shapes "3-7-1990").2.1 "3" "7" "1990" '-' '-'
      (by refine ⟨Or.inl rfl, Or.inl rfl, ?_⟩; decide)
    simpa using h
  · refine (formatDate_shapes "hello").2.2 (by decide) ?_
    rintro ⟨m, d, y, c1, c2, ⟨hc1, hc2, hm1, hm2, hmd, hd1, hd2, hdd, hy4, hyd, hs⟩⟩
    have : '-' ∈ "hello".data ∨ '/' ∈ "hello".data := by
      rcases hc1 with h | h <;> subst h
      · left; rw [hs]; simp
      · right; rw [hs]; simp
    rcases this with h | h <;> exact absurd h (by decide)

/-- C7: the date normalizer is idempotent — its output is always either empty
or an 8-digit token, and both are fixed points of `formatDate`. -/
theorem formatDate_idempotent (x : String) :
    formatDate (formatDate x) = formatDate x := by
  rcases formatDate_output x with h | ⟨h8, hdig⟩
  · rw [h]; rfl
  · exact formatDate_eight h8 hdig

/-- C5: decoding `"MSH|a|b\nPID|x"` through the table-driven decoder with a
schema mapping MSH position 1 to `sendingApp` and PID position 1 to
`patientId` yields exactly
`{MSH: {sendingApp: "a", field2: "b"}, PID: {patientId: "x"}}`; and in
general every wire position with no schema entry decodes under the generic
fallback name `field<N>` with `N` the 1-based wire position, while a mapped
position decodes under its schema name. -/
theorem decode_schema_and_fallback :
    convertHL7ToJsonWith [("MSH", [(1, "sendingApp")]), ("PID", [(1, "patientId")])]
        "MSH|a|b\nPID|x"
      = [("MSH", [("sendingApp", "a"), ("field2", "b")]), ("PID", [("patientId", "x")])]
    ∧ (∀ tbl : List (Nat × String), ∀ pos : Nat,
        positionName tbl pos = none → fieldKeyFor tbl pos = "field" ++ toString pos)
    ∧ (∀ tbl : List (Nat × String), ∀ pos : Nat, ∀ name : String,
        positionName tbl pos = some name → fieldKeyFor tbl pos = name) := by
  refine ⟨by decide, ?_, ?_⟩
  · intro tbl pos h
    unfold fieldKeyFor
    rw [h]
  · intro tbl pos name h
    unfold fieldKeyFor
    rw [h]

/-- C5 (witness): the generic-name conjunct applied to a small MSH
table at unmapped position 7, and the mapped-name conjunct at position 2. -/
theorem decode_schema_and_fallback_witness :
    fieldKeyFor [(1, "sendingApp")] 2 = "field2"
    ∧ fieldKeyFor [(1, "setId"), (3, "patientId")] 3 = "patientId" :=
  ⟨decode_schema_and_fallback.2.1 [(1, "sendingApp")] 2 (by decide),
   decode_schema_and_fallback.2.2 [(1, "setId"), (3, "patientId")] 3 "patientId" (by decide)⟩

/-- C9: a wire line that is only a segment type token (no `|`-separated
fields) decodes to an empty field map under that key, for every type token;
the decoder is a total function, so such a line is never an error. -/
theorem decode_bare_type_token (t : String) (hne : jsTrim t ≠ "")
    (hnp : ¬ '|' ∈ t.data) (hnl : ¬ '\n' ∈ t.data) :
    convertHL7ToJson t = [(t, [])] := by
  have hsplitnl : splitChar '\n' t.data = [t.data] := by
    have : ∀ l : List Char, ¬ '\n' ∈ l → splitChar '\n' l = [l] := by
      intro l
      induction l with
      | nil => intro _; rfl
      | cons c cs ih =>
        intro hmem
        rw [splitChar]
        rw [if_neg (by intro hc; exact hmem (hc ▸ List.mem_cons_self c cs))]
        rw [ih (fun hm => hmem (List.mem_cons_of_mem c hm))]
    exact this t.data hnl
  have hsplitp : splitChar '|' t.data = [t.data] := by
    have : ∀ l : List Char, ¬ '|' ∈ l → splitChar '|' l = [l] := by
      intro l
      induction l with
      | nil => intro _; rfl
      | cons c cs ih =>
        intro hmem
        rw [splitChar]
        rw [if_neg (by intro hc; exact hmem (hc ▸ List.mem_cons_self c cs))]
        rw [ih (fun hm => hmem (List.mem_cons_of_mem c hm))]
    exact this t.data hnp
  unfold convertHL7ToJson convertHL7ToJsonWith
  rw [show jsSplit '\n' t = [t] by unfold jsSplit; rw [hsplitnl]; rfl]
  have hfil : [t].filter (fun l => jsTrim l != "") = [t] := by
    rw [List.filter_cons]
    rw [if_pos (by simpa using hne)]
    rfl
  rw [hfil]
  show decodeLine segmentFieldMappings [] t = [(t, [])]
  unfold decodeLine
  rw [show jsSplit '|' t = [t] by unfold jsSplit; rw [hsplitp]; rfl]
  dsimp only
  by_cases hobx : (t == "OBX") = true
  · rw [eq_of_beq hobx]
    rfl
  · rw [if_neg hobx]
    rfl

/-- C9 (witness): the bare-token theorem at the concrete line `"ZZZ"`. -/
theorem decode_bare_type_token_witness : convertHL7ToJson "ZZZ" = [("ZZZ", [])] :=
  decode_bare_type_token "ZZZ" (by decide) (by decide) (by decide)

section ObxOrdering

lemma lexLe_total : ∀ a b : List Char, lexLe a b = true ∨ lexLe b a = true
  | [], _ => Or.inl rfl
  | _ :: _, [] => Or.inr rfl
  | a :: as, b :: bs => by
    rw [lexLe, lexLe]
    by_cases hab : a = b
    · subst hab
      rw [if_pos rfl, if_pos rfl]
      exact lexLe_total as bs
    · rw [if_neg hab, if_neg (fun h => hab h.symm)]
      rcases lt_or_gt_of_ne hab with h | h
      · exact Or.inl (decide_eq_true h)
      · exact Or.inr (decide_eq_true h)

lemma lexLe_trans : ∀ a b c : List Char,
    lexLe a b = true → lexLe b c = true → lexLe a c = true
  | [], _, _ => fun _ _ => rfl
  | a :: as, [], _ => fun h _ => absurd h (by rw [lexLe]; simp)
  | _ :: _, _ :: _, [] => fun _ h => absurd h (by rw [lexLe]; simp)
  | a :: as, b :: bs, c :: cs => by
    rw [lexLe, lexLe, lexLe]
    by_cases hab : a = b <;> by_cases hbc : b = c
    · subst hab; subst hbc
      rw [if_pos rfl, if_pos rfl, if_pos rfl]
      exact lexLe_trans as bs cs
    · subst hab
      rw [if_pos rfl, if_neg hbc, if_neg hbc]
      exact fun _ h => h
    · subst hbc
      rw [if_neg hab, if_pos rfl, if_neg hab]
      exact fun h _ => h
    · rw [if_neg hab, if_neg hbc]
      intro h1 h2
      have hlt1 : a < b := of_decide_eq_true h1
      have hlt2 : b < c := of_decide_eq_true h2
      have hac : a < c := lt_trans hlt1 hlt2
      rw [if_neg (ne_of_lt hac)]
      exact decide_eq_true hac

instance (record : HL7Json) : IsTotal String (obxKeyLe record) :=
  ⟨fun a b => lexLe_total (obxSortKey record a).data (obxSortKey record b).data⟩

instance (record : HL7Json) : IsTrans String (obxKeyLe record) :=
  ⟨fun a b c h1 h2 => lexLe_trans (obxSortKey record a).data (obxSortKey record b).data
    (obxSortKey record c).data h1 h2⟩

lemma obxSortKey_eq_setId (record : HL7Json) (k : String)
    (h : jsGetD ((jsGet record k).getD []) "setId" ≠ "") :
    obxSortKey record k = jsGetD ((jsGet record k).getD []) "setId" := by
  unfold obxSortKey
  cases hm : jsGet record k with
  | none =>
    rw [hm] at h
    exact absurd rfl h
  | some m =>
    rw [hm] at h
    rw [Option.getD_some] at h ⊢
    rw [Option.some_bind]
    cases hs : jsGet m "setId" with
    | none =>
      exfalso
      apply h
      unfold jsGetD
      rw [hs]
      rfl
    | some setId =>
      dsimp only
      have hval : jsGetD m "setId" = setId := by unfold jsGetD; rw [hs]; rfl
      rw [hval] at h ⊢
      rw [if_neg (by simpa using h)]

/-- The example record of the repeat-ordering property: two OBX instances
whose set ids are `"2"` and `"10"` in that insertion order. -/
def obxExample : HL7Json :=
  [ ("OBX1", [("setId", "2"), ("valueType", "ST"),
      ("observationIdentifier", "A"), ("observationValue", "v1"),
      ("observationStatus", "F")]),
    ("OBX2", [("setId", "10"), ("valueType", "ST"),
      ("observationIdentifier", "B"), ("observationValue", "v2"),
      ("observationStatus", "F")]) ]

end ObxOrdering

/-- C3: the encoder emits one OBX line per `OBX*` key of the record, and the
emitted order is sorted by the `localeCompare` string comparison of the
per-instance sort keys; when every instance carries a nonempty set id the
emission order is sorted by the string comparison of the set ids themselves —
in particular the example instances with set ids `"2"` and `"10"` are emitted
with the `"10"` line first, since `"10"` precedes `"2"` in string order. -/
theorem obx_emission_sorted (record : HL7Json) :
    (obxSegments record).length = (obxKeys record).length
    ∧ List.Pairwise (fun a b => strLe a b = true)
        ((sortedObxKeys record).map (obxSortKey record))
    ∧ ((∀ k ∈ obxKeys record, jsGetD ((jsGet record k).getD []) "setId" ≠ "") →
        List.Pairwise (fun a b => strLe a b = true)
          ((sortedObxKeys record).map (fun k => jsGetD ((jsGet record k).getD []) "setId")))
    ∧ obxSegments obxExample = ["OBX|10|ST|B||v2||||||F", "OBX|2|ST|A||v1||||||F"] := by
  have hpair : List.Pairwise (fun a b => strLe a b = true)
      ((sortedObxKeys record).map (obxSortKey record)) := by
    rw [List.pairwise_map]
    exact List.sorted_insertionSort (obxKeyLe record) (obxKeys record)
  refine ⟨?_, hpair, ?_, by decide⟩
  · unfold obxSegments sortedObxKeys
    rw [List.length_map, List.length_insertionSort]
  · intro hall
    have hmem : ∀ k ∈ sortedObxKeys record, k ∈ obxKeys record := by
      intro k hk
      exact (List.perm_insertionSort (obxKeyLe record) (obxKeys record)).mem_iff.mp hk
    have hmapeq : (sortedObxKeys record).map (fun k => jsGetD ((jsGet record k).getD []) "setId")
        = (sortedObxKeys record).map (obxSortKey record) := by
      apply List.map_congr_left
      intro k hk
      exact (obxSortKey_eq_setId record k (hall k (hmem k hk))).symm
    rw [hmapeq]
    exact hpair

/-- C3 (witness): the set-id ordering conjunct applied to the example record;
the emitted order of set ids is `["10", "2"]`, which is sorted in string
order. -/
theorem obx_emission_sorted_witness :
    List.Pairwise (fun a b => strLe a b = true)
      ((sortedObxKeys obxExample).map (fun k => jsGetD ((jsGet obxExample k).getD []) "setId")) :=
  (obx_emission_sorted obxExample).2.2.1 (by decide)

/-- The restriction named by the round-trip claim: the populated fields of the
record are exactly those covered by the encoder schema — the segment keys are
the schema types, and the field names of each segment are the schema field
names declared for that type. -/
def populatedExactlySchema (record : HL7Json) : Bool :=
  (record.map (·.1) == segmentDefinitions.map (·.1))
  && segmentDefinitions.all (fun d =>
    match jsGet record d.1 with
    | some segData => segData.map (·.1) == d.2.map (·.1)
    | none => false)

/-- A concrete record populated on exactly the schema-covered fields, with
distinct pipe-free values (dates already in wire form). -/
def roundTripRecord : HL7Json :=
  [ ("MSH",
      [ ("encodingCharacters", "E1"), ("sendingApplication", "SA"),
        ("sendingFacility", "SF"), ("receivingApplication", "RA"),
        ("receivingFacility", "RF"), ("dateTime", "20240102"),
        ("messageType", "MT"), ("controlId", "CI"),
        ("processingId", "PX"), ("versionId", "VI") ]),
    ("PID",
      [ ("setId", "1"), ("patientId", "P1"), ("patientName", "PN"),
        ("dob", "20000101"), ("gender", "M"), ("address", "AD"),
        ("phoneNumber", "PH"), ("patientAccountNumber", "AC") ]),
    ("PV1",
      [ ("setId", "1"), ("patientClass", "O"), ("attendingDoctor", "DR"),
        ("billingProviderPhone", "BP"), ("providerAddress", "PA") ]),
    ("PR1",
      [ ("setId", "1"), ("procedureCode", "PC"), ("procedureDescription", "PD"),
        ("procedureDate", "20240103"), ("providerName", "PR") ]),
    ("IN1",
      [ ("setId", "1"), ("insurancePlan", "IP"), ("otherInsured", "OI"),
        ("insuranceId", "II"), ("secondaryInsurancePlan", "SP"),
        ("healthBenefitPlan", "HB"), ("insuredName", "IN"),
        ("insuredDob", "19900101"), ("insuredAddress", "IA"),
        ("insuredPhoneNumber", "IPH") ]) ]

set_option maxRecDepth 4096 in
/-- C1: round-tripping fails even for a record populated on exactly the
schema-covered fields.  The encoder allocates slot 0 of the field array ahead
of every declared index (all indices are ≥ 1) so the field declared at index
`i` lands at wire position `i + 1`, while the decoder names wire position `p`
with the schema name for position `p`.  Decoding the encoding therefore files
every value under the name of the following position: the `encodingCharacters`
value `"E1"` of the record comes back as `sendingApplication`, and the
decoded `encodingCharacters` is the empty slot 0. -/
theorem roundTrip_shifts_fields :
    populatedExactlySchema roundTripRecord = true
    ∧ convertHL7ToJson (convertToHL7 roundTripRecord) ≠ roundTripRecord
    ∧ (jsGet (convertHL7ToJson (convertToHL7 roundTripRecord)) "MSH").map
        (fun m => jsGet m "sendingApplication") = some (some "E1")
    ∧ jsGet ((jsGet roundTripRecord "MSH").getD []) "encodingCharacters" = some "E1"
    ∧ (jsGet (convertHL7ToJson (convertToHL7 roundTripRecord)) "MSH").map
        (fun m => jsGet m "encodingCharacters") = some (some "") := by
  refine ⟨rfl, by decide, rfl, rfl, rfl⟩

/-- The fixed set of canonical field names the switch-based decoder produces
for each known segment type. -/
def canonicalKeys (segmentType : String) : List String :=
  match segmentType with
  | "MSH" =>
      [ "encodingCharacters", "sendingApplication", "sendingFacility",
        "receivingApplication", "receivingFacility", "dateTime", "messageType",
        "controlId", "processingId", "versionId" ]
  | "PID" =>
      [ "setId", "patientId", "patientName", "dob", "gender", "address",
        "phoneNumber", "patientAccountNumber" ]
  | "PV1" => [ "setId", "patientClass", "attendingDoctor", "providerPhoneNumber" ]
  | "PR1" =>
      [ "setId", "procedureCode", "procedureDescription", "procedureDate",
        "providerName" ]
  | "IN1" =>
      [ "setId", "insurancePlan", "otherInsured", "insuranceId",
        "secondaryInsurancePlan", "insuredName", "insuredDob", "insuredAddress",
        "insuredPhoneNumber" ]
  | "OBX" =>
      [ "setId", "valueType", "observationIdentifier", "observationValue",
        "observationStatus" ]
  | _ => []

/-- The 0-based wire array index each canonical name reads in the switch-based
decoder. -/
def switchPositions (segmentType : String) : List (String × Nat) :=
  match segmentType with
  | "MSH" =>
      [ ("encodingCharacters", 0), ("sendingApplication", 1), ("sendingFacility", 2),
        ("receivingApplication", 3), ("receivingFacility", 4), ("dateTime", 5),
        ("messageType", 7), ("controlId", 8), ("processingId", 9), ("versionId", 10) ]
  | "PID" =>
      [ ("setId", 0), ("patientId", 2), ("patientName", 4), ("dob", 6),
        ("gender", 7), ("address", 10), ("phoneNumber", 12),
        ("patientAccountNumber", 17) ]
  | "PV1" =>
      [ ("setId", 0), ("patientClass", 1), ("attendingDoctor", 6),
        ("providerPhoneNumber", 18) ]
  | "PR1" =>
      [ ("setId", 0), ("procedureCode", 2), ("procedureDescription", 3),
        ("procedureDate", 4), ("providerName", 10) ]
  | "IN1" =>
      [ ("setId", 0), ("insurancePlan", 1), ("otherInsured", 2), ("insuranceId", 3),
        ("secondaryInsurancePlan", 4), ("insuredName", 15), ("insuredDob", 17),
        ("insuredAddress", 18), ("insuredPhoneNumber", 19) ]
  | "OBX" =>
      [ ("setId", 0), ("valueType", 1), ("observationIdentifier", 2),
        ("observationValue", 4), ("observationStatus", 10) ]
  | _ => []

/-- The segment types the switch-based decoder knows. -/
def knownTypes : List String := ["MSH", "PID", "PV1", "PR1", "IN1", "OBX"]

/-- C10: for every known segment type and every wire field list, the
field map of the switch-based decoder binds exactly the fixed canonical name
set of that type, and the value bound to each name is the wire field at the
position of that name — with the empty string substituted when the wire field is absent.
A decoded segment therefore never distinguishes an absent wire field from an
explicitly empty one. -/
theorem switch_decoder_full_shape :
    ∀ t ∈ knownTypes, ∀ fields : List String,
      (switchSegmentMap t fields).map (·.1) = canonicalKeys t
      ∧ ∀ p ∈ switchPositions t,
          jsGet (switchSegmentMap t fields) p.1 = some ((fields.get? p.2).getD "") := by
  intro t ht fields
  fin_cases ht <;> refine ⟨rfl, ?_⟩ <;> intro p hp <;> fin_cases hp <;> rfl

/-- C10 (witness): the full-shape theorem at `"PID"` with an empty wire field
list: `patientName` is bound and holds the empty string. -/
theorem switch_decoder_full_shape_witness :
    jsGet (switchSegmentMap "PID" []) "patientName" = some "" :=
  (switch_decoder_full_shape "PID" (by decide) []).2 ("patientName", 4) (by decide)

/-- C8 (counterexample): the fixed-template encoder `toHl7Format` is not a
pure function of the document data — it reads the ambient clock.  Two runs on
the same (empty) parsed data at different clock readings disagree. -/
theorem toHl7Format_clock_dependent :
    toHl7Format "2025-01-01T00:00:00.000Z" []
      ≠ toHl7Format "2026-01-01T00:00:00.000Z" [] := by
  decide

/-- C8 (amended): with the clock read modelled as an explicit input,
`toHl7Format` is deterministic in `(clock, data)`, and its output determines
the clock reading: for fixed parsed data, two outputs are equal exactly when
the clock readings are equal, because the clock value is embedded verbatim at
MSH-7.  The table codec functions take only their text input. -/
theorem toHl7Format_eq_iff_clock_eq (data : List (String × String)) (now now2 : String) :
    toHl7Format now data = toHl7Format now2 data ↔ now = now2 := by
  constructor
  · intro h
    unfold toHl7Format at h
    have hd := congrArg String.data h
    simp only [String.intercalate, String.intercalate.go, String.data_append,
      List.append_assoc] at hd
    have h2 := List.append_cancel_left hd
    have h3 := List.append_cancel_right h2
    exact String.ext h3
  · intro h
    rw [h]

section QuorumExtraction

/-- Whether a field counts as successfully matched: its effective match exists
and, for a date field, survived the month/day/year post-processing and the
1900–2025 year range check. -/
def matchAccepted (σ : MatchAssignment) (sp : FieldSpec) : Bool :=
  match effectiveMatch σ sp with
  | none => false
  | some m =>
    if sp.isDate then
      match dateOfMatch m with
      | .ok (some _) => true
      | _ => false
    else m.g1.isSome

/-- Whether processing a field cannot throw (`TypeError` paths excluded). -/
def stepClean (σ : MatchAssignment) (sp : FieldSpec) : Bool :=
  match effectiveMatch σ sp with
  | none => true
  | some m =>
    if sp.isDate then
      match dateOfMatch m with
      | .error _ => false
      | .ok _ => true
    else m.g1.isSome

/-- Count of required fields successfully matched over a spec list. -/
def countOf (σ : MatchAssignment) : List FieldSpec → Nat
  | [] => 0
  | sp :: specs => (if sp.required && matchAccepted σ sp then 1 else 0) + countOf σ specs

/-- Keys of required fields whose patterns (primary and fallback) produced no
match at all, over a spec list. -/
def missingOf (σ : MatchAssignment) : List FieldSpec → List String
  | [] => []
  | sp :: specs =>
    (if sp.required && (effectiveMatch σ sp).isNone then [sp.key] else [])
      ++ missingOf σ specs

/-- Keys of required fields that were not successfully matched — the set the
claim says the quorum failure should carry. -/
def requiredNotAccepted (σ : MatchAssignment) : List String :=
  (fieldExtractors.filter (fun sp => sp.required && !matchAccepted σ sp)).map (·.key)

lemma ok_bind {ε α β : Type} (a : α) (f : α → Except ε β) :
    (Except.ok a : Except ε α) >>= f = f a := rfl

lemma foldl_extract (σ : MatchAssignment) :
    ∀ (specs : List FieldSpec) (acc : ExtAcc),
      (∀ sp ∈ specs, stepClean σ sp = true) →
      ∃ d, List.foldlM (stepField σ) acc specs
        = .ok ⟨d, acc.missing ++ missingOf σ specs, acc.found + countOf σ specs⟩
  | [], acc => by
    intro _
    refine ⟨acc.data, ?_⟩
    rw [List.foldlM_nil, missingOf, countOf, List.append_nil, Nat.add_zero]
    rfl
  | sp :: specs, acc => by
    intro hclean
    have hcl : stepClean σ sp = true := hclean sp (List.mem_cons_self sp specs)
    have hrest : ∀ sp2 ∈ specs, stepClean σ sp2 = true :=
      fun sp2 h => hclean sp2 (List.mem_cons_of_mem sp h)
    rw [List.foldlM_cons, missingOf, countOf]
    cases hem : effectiveMatch σ sp with
    | none =>
      have hstep : stepField σ acc sp
          = .ok (if sp.required then ⟨acc.data, acc.missing ++ [sp.key], acc.found⟩
                 else acc) := by
        unfold stepField
        rw [hem]
      have hacc2 : matchAccepted σ sp = false := by
        unfold matchAccepted
        rw [hem]
      rw [hstep, ok_bind, hacc2]
      by_cases hreq : sp.required
      · rw [if_pos hreq]
        obtain ⟨d, hd⟩ := foldl_extract σ specs ⟨acc.data, acc.missing ++ [sp.key], acc.found⟩ hrest
        refine ⟨d, ?_⟩
        rw [hd]
        simp [hreq, List.append_assoc]
      · rw [if_neg hreq]
        obtain ⟨d, hd⟩ := foldl_extract σ specs acc hrest
        refine ⟨d, ?_⟩
        rw [hd]
        simp [hreq]
    | some m =>
      by_cases hdate : sp.isDate
      · have hclm : (match dateOfMatch m with
            | Except.error _ => false | Except.ok _ => true) = true := by
          unfold stepClean at hcl
          rw [hem] at hcl
          dsimp only at hcl
          rw [if_pos hdate] at hcl
          exact hcl
        cases hdm : dateOfMatch m with
        | error e =>
          rw [hdm] at hclm
          cases hclm
        | ok ov =>
          cases ov with
          | none =>
            have hstep : stepField σ acc sp = .ok acc := by
              unfold stepField
              rw [hem]
              dsimp only
              rw [if_pos hdate, hdm]
            have hacc2 : matchAccepted σ sp = false := by
              unfold matchAccepted
              rw [hem]
              dsimp only
              rw [if_pos hdate, hdm]
            rw [hstep, ok_bind, hacc2]
            obtain ⟨d, hd⟩ := foldl_extract σ specs acc hrest
            refine ⟨d, ?_⟩
            rw [hd]
            simp
          | some v =>
            have hstep : stepField σ acc sp
                = .ok ⟨jsSet acc.data sp.key v, acc.missing,
                       reqBump sp.required acc.found⟩ := by
              unfold stepField
              rw [hem]
              dsimp only
              rw [if_pos hdate, hdm]
            have hacc2 : matchAccepted σ sp = true := by
              unfold matchAccepted
              rw [hem]
              dsimp only
              rw [if_pos hdate, hdm]
            rw [hstep, ok_bind, hacc2]
            obtain ⟨d, hd⟩ := foldl_extract σ specs
              ⟨jsSet acc.data sp.key v, acc.missing, reqBump sp.required acc.found⟩ hrest
            refine ⟨d, ?_⟩
            rw [hd]
            unfold reqBump
            by_cases hreq : sp.required
            · simp [hreq, Nat.add_assoc]
            · simp [hreq]
      · have hg1t : m.g1.isSome = true := by
          unfold stepClean at hcl
          rw [hem] at hcl
          dsimp only at hcl
          rw [if_neg hdate] at hcl
          exact hcl
        cases hg : m.g1 with
        | none =>
          rw [hg] at hg1t
          cases hg1t
        | some s =>
          have hstep : stepField σ acc sp
              = .ok ⟨jsSet acc.data sp.key (jsTrim s), acc.missing,
                     reqBump sp.required acc.found⟩ := by
            unfold stepField
            rw [hem]
            dsimp only
            rw [if_neg hdate, hg]
          have hacc2 : matchAccepted σ sp = true := by
            unfold matchAccepted
            rw [hem]
            dsimp only
            rw [if_neg hdate, hg]
            rfl
          rw [hstep, ok_bind, hacc2]
          obtain ⟨d, hd⟩ := foldl_extract σ specs
            ⟨jsSet acc.data sp.key (jsTrim s), acc.missing, reqBump sp.required acc.found⟩ hrest
          refine ⟨d, ?_⟩
          rw [hd]
          unfold reqBump
          by_cases hreq : sp.required
          · simp [hreq, Nat.add_assoc]
          · simp [hreq]

end QuorumExtraction

/-- C4 (amended): whenever no `TypeError` path is hit, extraction fails with
the quorum error exactly when fewer than 4 required fields were successfully
matched, and the error then carries the required fields whose patterns
produced **no match at all** — not the required fields that were not
successfully matched: a required date field whose pattern matched but whose
year fell outside 1900–2025 counts against the quorum yet is omitted from the
carried list. -/
theorem quorum_failure_spec (σ : MatchAssignment)
    (hclean : ∀ sp ∈ fieldExtractors, stepClean σ sp = true) :
    (countOf σ fieldExtractors < 4 →
      extractDataCore σ = .error (.quorum (missingOf σ fieldExtractors)))
    ∧ (4 ≤ countOf σ fieldExtractors → ∃ d, extractDataCore σ = .ok d) := by
  obtain ⟨d, hrun⟩ := foldl_extract σ fieldExtractors ⟨[], [], 0⟩ hclean
  unfold extractDataCore runExtractors
  rw [hrun]
  simp only [List.nil_append, Nat.zero_add]
  constructor
  · intro hlt
    rw [if_pos hlt]
  · intro hge
    rw [if_neg (Nat.not_lt.mpr hge)]
    exact ⟨_, rfl⟩

/-- C4 (witness): the amended theorem at the assignment where nothing matches:
all four required fields are carried by the quorum failure. -/
theorem quorum_failure_spec_witness :
    extractDataCore (fun _ => (none, none))
      = .error (.quorum ["patientName", "insuranceId", "serviceDate", "diagnosis"]) :=
  (quorum_failure_spec (fun _ => (none, none)) (by decide)).1 (by decide)

/-- A match assignment in which `patientName`, `insuranceId` and `diagnosis`
match and the required `serviceDate` pattern matches with capture groups
`05 / 16 / 2030` — year 2030 is outside the accepted 1900–2025 range, so the
field is not counted as successfully matched. -/
def rejectedDateAssignment : MatchAssignment := fun k =>
  if k == "patientName" then (some ⟨some "Davis John", none, none⟩, none)
  else if k == "insuranceId" then (some ⟨some "234567", none, none⟩, none)
  else if k == "diagnosis" then (some ⟨some "90832", none, none⟩, none)
  else if k == "serviceDate" then (some ⟨some "05", some "16", some "2030"⟩, none)
  else (none, none)

/-- C4 (counterexample): at `rejectedDateAssignment` only 3 required fields
are successfully matched, so extraction fails on the quorum — but the carried
list is empty, while the required fields that did not successfully match are
exactly `["serviceDate"]`.  The carried list does not name the fields the
quorum count is missing. -/
theorem quorum_list_omits_rejected_date :
    extractDataCore rejectedDateAssignment = .error (.quorum [])
    ∧ requiredNotAccepted rejectedDateAssignment = ["serviceDate"]
    ∧ ([] : List String) ≠ ["serviceDate"] := by
  refine ⟨rfl, rfl, by decide⟩
